import Mathlib

/-!
Verification of the QueueVision BullMQ adapter
(`src/adapters/bullmq/BullMQAdapter.ts`) against its natural-language
specification.

The adapter reads BullMQ's Redis layout directly.  We shallowly embed the
connected adapter (the `this.client !== null` fast path) over an explicit
model of one queue's Redis keyspace:

* `bull:<q>:wait`, `bull:<q>:active`   — lists of job ids,
* `bull:<q>:completed`, `bull:<q>:failed`, `bull:<q>:delayed`
    — sorted sets, kept here as the ascending-by-score list of
      (member, score) pairs exactly as Redis orders them,
* `bull:<q>:<id>` — the per-job record hash, a list of (field, value) pairs.

JavaScript particulars that the adapter relies on are modelled explicitly:

* `JSON.parse` is a host builtin, so the embedding is parameterised by a
  parse oracle `jp : String → Option JVal`; `none` models a thrown
  `SyntaxError`, which the adapter's `catch` turns into an `Err`.
* `parseInt(s, 10)` never throws; it returns NaN when no leading digits
  exist.  JavaScript numbers-that-may-be-NaN are modelled as `Option Int`
  (`none` = NaN), with NaN-propagating arithmetic.
* JS truthiness on hash fields: a field is "truthy" exactly when it is
  present and not the empty string.
-/

/-- A JSON value as produced by a successful `JSON.parse`.  Numbers are
modelled as integers (the adapter never does arithmetic on decoded JSON
numbers, so this loses nothing the claims need). -/
inductive JVal where
  | null : JVal
  | bool : Bool → JVal
  | num : Int → JVal
  | str : String → JVal
  | arr : List JVal → JVal
  | obj : List (String × JVal) → JVal
deriving Repr

/-- A JavaScript number that may be NaN (`none` = NaN). -/
abbrev JSNum := Option Int

/-- NaN-propagating addition of JavaScript numbers. -/
def jsAdd (a b : JSNum) : JSNum := a.bind fun x => b.map fun y => x + y

/-- NaN-propagating subtraction of JavaScript numbers. -/
def jsSub (a b : JSNum) : JSNum := a.bind fun x => b.map fun y => x - y

/-- `parseInt(s, 10)`: skip ASCII whitespace, read an optional sign and
then the maximal run of decimal digits; NaN (`none`) when that run is
empty.  Trailing garbage is ignored, exactly as in JavaScript. -/
def parseIntJS (s : String) : JSNum :=
  let cs := s.data.dropWhile fun c => c = ' ' ∨ c = '\t' ∨ c = '\n' ∨ c = '\r'
  let (sign, rest) : Int × List Char :=
    match cs with
    | [] => (1, [])
    | c :: r =>
      if c = '-' then (-1, r) else if c = '+' then (1, r) else (1, c :: r)
  let digits := rest.takeWhile Char.isDigit
  if digits.isEmpty then none
  else some (sign * (digits.foldl (fun a c => a * 10 + (c.toNat - 48)) 0 : Nat))

/-- Look a field up in a Redis hash reply (first binding wins). -/
def hget (h : List (String × String)) (k : String) : Option String :=
  (h.find? fun p => p.1 = k).map fun p => p.2

/-- JS truthiness of an optional string field: present and non-empty. -/
def truthy (o : Option String) : Option String :=
  match o with
  | some s => if s = "" then none else some s
  | none => none

/-- The Redis keyspace of one queue, as read by the adapter.  Sorted sets
are the ascending-by-score member list Redis maintains; `hash jid` is the
contents of `bull:<q>:<jid>` (`[]` = key absent). -/
structure QueueState where
  wait : List String
  active : List String
  completed : List (String × Int)
  failed : List (String × Int)
  delayed : List (String × Int)
  hash : String → List (String × String)

/-- Redis `LRANGE`/`ZRANGE` index semantics: negative indices count from
the end, the stop index is inclusive and clamped to the last element. -/
def redisSlice {α : Type} (l : List α) (start stop : Int) : List α :=
  let n : Int := l.length
  let s : Int := if start < 0 then max (n + start) 0 else start
  let e : Int := min (if stop < 0 then n + stop else stop) (n - 1)
  if s > e then [] else (l.drop s.toNat).take (e - s + 1).toNat

/-- Redis `LPOS key element`: index of the first occurrence, or nil. -/
def lpos (l : List String) (x : String) : Option Nat :=
  l.findIdx? fun y => y = x

/-- Redis `ZSCORE key member`: the member's score, or nil. -/
def zscore (z : List (String × Int)) (m : String) : Option Int :=
  (z.find? fun p => p.1 = m).map fun p => p.2

/-- Errors surfaced by the modelled adapter operations (the source wraps
them all in `Err(new Error(...))`; we keep the message classes apart). -/
inductive JobError where
  | notFound : JobError
  | decode : JobError
  | typeErr : JobError
  | unknownStatus : JobError
deriving Repr, DecidableEq

/-- A decoded job, mirroring the `Job` object literal built by
`fetchJobData`.  NaN-able numbers are `JSNum`; `processedOn`, `finishedOn`
and `delay` are `Option JSNum` with the outer `none` standing for the
JS `null`/`undefined` taken when the hash field is falsy. -/
structure Job where
  id : String
  queueName : String
  data : JVal
  status : String
  error : Option String
  stacktrace : JVal
  attempts : JSNum
  maxAttempts : Option JVal
  timestamp : JSNum
  processedOn : Option JSNum
  finishedOn : Option JSNum
  returnvalue : Option JVal
  delay : Option JSNum

/-- The conditional `JSON.parse` applied to a payload hash field
(`jobData.f ? JSON.parse(jobData.f) : fallback`): skip a falsy field,
parse a truthy one, a failed parse throwing the decode error. -/
def decodeJson (jp : String → Option JVal) (o : Option String) :
    Except JobError (Option JVal) :=
  match truthy o with
  | some s =>
    match jp s with
    | some v => .ok (some v)
    | none => .error .decode
  | none => .ok none

/-- `jobData.opts ? JSON.parse(jobData.opts).attempts : undefined`:
parse failure throws the decode error; `.attempts` on the decoded value
then throws a TypeError on JSON `null`, reads the field on an object,
and yields `undefined` on any other value. -/
def decodeOptsAttempts (jp : String → Option JVal) (o : Option String) :
    Except JobError (Option JVal) :=
  match truthy o with
  | some s =>
    match jp s with
    | none => .error .decode
    | some (JVal.obj fs) =>
        .ok ((fs.find? fun p => p.1 = "attempts").map fun p => p.2)
    | some JVal.null => .error .typeErr
    | some _ => .ok none
  | none => .ok none

/-- `fetchJobData(queueName, jobId, status)`: read the job hash, return
`NotFound` when it is empty, otherwise build the `Job` object literal.
`jp` is the `JSON.parse` oracle; a failed parse on a truthy `data`,
`stacktrace`, `opts` or `returnvalue` field throws and is caught as an
error, in the evaluation order of the TS object literal. -/
def fetchJobData (jp : String → Option JVal) (st : QueueState)
    (q jid status : String) : Except JobError Job :=
  let h := st.hash jid
  if h = [] then .error .notFound
  else do
    let data ← decodeJson jp (hget h "data")
    let stacktrace ← decodeJson jp (hget h "stacktrace")
    let maxAttempts ← decodeOptsAttempts jp (hget h "opts")
    let returnvalue ← decodeJson jp (hget h "returnvalue")
    Except.ok
      { id := jid
        queueName := q
        data := data.getD JVal.null
        status := status
        error := truthy (hget h "failedReason")
        stacktrace := stacktrace.getD JVal.null
        attempts := parseIntJS ((truthy (hget h "attemptsMade")).getD "0")
        maxAttempts := maxAttempts
        timestamp := parseIntJS ((truthy (hget h "timestamp")).getD "0")
        processedOn := (truthy (hget h "processedOn")).map parseIntJS
        finishedOn := (truthy (hget h "finishedOn")).map parseIntJS
        returnvalue := returnvalue
        delay := (truthy (hget h "delay")).map parseIntJS }

/-- The five index names `getJob` probes, in source probe order. -/
inductive Ix where
  | waiting : Ix
  | active : Ix
  | completed : Ix
  | failed : Ix
  | delayed : Ix
deriving Repr, DecidableEq

/-- `getJob(queueName, jobId)` together with the trace of indexes probed:
probe `wait` (LPOS), then `active` (LPOS), then `completed`, `failed`,
`delayed` (ZSCORE); the first positive probe short-circuits into
`fetchJobData` with the corresponding status, a miss on all five is the
NotFound error. -/
def getJobProbed (jp : String → Option JVal) (st : QueueState)
    (q jid : String) : Except JobError Job × List Ix :=
  if (lpos st.wait jid).isSome then
    (fetchJobData jp st q jid "waiting", [Ix.waiting])
  else if (lpos st.active jid).isSome then
    (fetchJobData jp st q jid "active", [Ix.waiting, Ix.active])
  else if (zscore st.completed jid).isSome then
    (fetchJobData jp st q jid "completed", [Ix.waiting, Ix.active, Ix.completed])
  else if (zscore st.failed jid).isSome then
    (fetchJobData jp st q jid "failed",
      [Ix.waiting, Ix.active, Ix.completed, Ix.failed])
  else if (zscore st.delayed jid).isSome then
    (fetchJobData jp st q jid "delayed",
      [Ix.waiting, Ix.active, Ix.completed, Ix.failed, Ix.delayed])
  else
    (.error .notFound,
      [Ix.waiting, Ix.active, Ix.completed, Ix.failed, Ix.delayed])

/-- `getJob` proper: the result component of the probed run. -/
def getJob (jp : String → Option JVal) (st : QueueState)
    (q jid : String) : Except JobError Job :=
  (getJobProbed jp st q jid).1

/-- The id page `getJobs` reads for a status: `LRANGE` on the wait/active
lists, `ZREVRANGE` on completed/failed, `ZRANGE` on delayed, all over
`[offset, offset+limit-1]`; any other status string is the
unknown-status error of the `switch` default. -/
def pageIds (st : QueueState) (status : String) (offset limit : Int) :
    Except JobError (List String) :=
  let start := offset
  let stop := offset + limit - 1
  if status = "waiting" then .ok (redisSlice st.wait start stop)
  else if status = "active" then .ok (redisSlice st.active start stop)
  else if status = "completed" then
    .ok (redisSlice ((st.completed.map Prod.fst).reverse) start stop)
  else if status = "failed" then
    .ok (redisSlice ((st.failed.map Prod.fst).reverse) start stop)
  else if status = "delayed" then
    .ok (redisSlice (st.delayed.map Prod.fst) start stop)
  else .error .unknownStatus

/-- One step of `getJobs`' collection loop: push the `Ok` value, skip
the failed fetch. -/
def pushOk {ε α : Type} (acc : List α) (r : Except ε α) : List α :=
  match r with
  | .ok j => acc ++ [j]
  | .error _ => acc

/-- `getJobs({queueName, status, offset, limit})`: read the id page,
fetch every id, keep the `Ok` fetches in order (the `for` loop pushing
`result.value`), and return `Ok` of the survivors. -/
def getJobs (jp : String → Option JVal) (st : QueueState)
    (q status : String) (offset limit : Int) : Except JobError (List Job) :=
  match pageIds st status offset limit with
  | .error e => .error e
  | .ok ids =>
    let jobResults := ids.map fun jid => fetchJobData jp st q jid status
    .ok (jobResults.foldl pushOk [])

/-- The metrics snapshot: `throughput` is a count, `failureRate` an exact
rational in place of the JS float division, `avgProcessingTime` a
rational that is NaN (`none`) when a NaN timestamp poisoned the sum. -/
structure MetricsV where
  throughput : Nat
  failureRate : Rat
  avgProcessingTime : Option Rat
deriving Repr

/-- `getMetrics(queueName)`: `ZREVRANGE 0 99 WITHSCORES` on completed and
failed (the reply is modelled as (member, score) pairs directly), count
both samples' members with score within the last hour, divide the failed
sample size by the combined sample size, and average
`finishedOn - processedOn` over the completed sample's fetchable records
whose two timestamps are non-null, via the source's running
`totalProcessingTime` / `processedJobCount` accumulators
(`metricsStep` is the body of that `for` loop). -/
def metricsStep (jp : String → Option JVal) (st : QueueState)
    (q : String) (a : JSNum × Nat) (p : String × Int) : JSNum × Nat :=
  match fetchJobData jp st q p.1 "completed" with
  | .ok j =>
    match j.processedOn, j.finishedOn with
    | some po, some fo => (jsAdd a.1 (jsSub fo po), a.2 + 1)
    | _, _ => a
  | .error _ => a

def getMetrics (jp : String → Option JVal) (st : QueueState)
    (q : String) (now : Int) : Except JobError MetricsV :=
  let completedJobs := redisSlice st.completed.reverse 0 99
  let failedJobs := redisSlice st.failed.reverse 0 99
  let oneHourAgo := now - 60 * 60 * 1000
  let recentCompleted := completedJobs.filter fun p => oneHourAgo ≤ p.2
  let recentFailed := failedJobs.filter fun p => oneHourAgo ≤ p.2
  let throughput := recentCompleted.length + recentFailed.length
  let totalJobs := completedJobs.length + failedJobs.length
  let failureRate : Rat :=
    if totalJobs > 0 then (failedJobs.length : Rat) / (totalJobs : Rat) else 0
  let acc := completedJobs.foldl (metricsStep jp st q)
    ((some 0 : JSNum), (0 : Nat))
  let avgProcessingTime : Option Rat :=
    if acc.2 > 0 then acc.1.map fun t => (t : Rat) / (acc.2 : Rat)
    else some 0
  .ok { throughput := throughput
        failureRate := failureRate
        avgProcessingTime := avgProcessingTime }

/-- JS `String.prototype.split(sep)` for a one-character separator, over
the character list: `"".split` gives `[""]`, empty segments are kept. -/
def splitChar (sep : Char) : List Char → List (List Char)
  | [] => [[]]
  | c :: cs =>
    if c = sep then [] :: splitChar sep cs
    else
      match splitChar sep cs with
      | [] => [[c]]
      | w :: ws => (c :: w) :: ws

/-- `Array.prototype.join(sep)` for a one-character separator. -/
def joinChar (sep : Char) : List (List Char) → List Char
  | [] => []
  | [w] => w
  | w :: ws => w ++ sep :: joinChar sep ws

/-- Drop `p` from the front of `l` if `l` starts with it. -/
def stripPfx : List Char → List Char → Option (List Char)
  | [], rest => some rest
  | _ :: _, [] => none
  | p :: ps, c :: cs => if c = p then stripPfx ps cs else none

/-- JS line terminators, which the regex dot does not match. -/
def isLineTerm (c : Char) : Bool :=
  c = '\n' ∨ c = '\r' ∨ c = ' ' ∨ c = ' '

/-- The regex match `^__keyspace@\d+__:bull:(.+)$` — literal head, at
least one digit, the literal `__:bull:`, then a non-empty capture whose
characters the dot must all match (so no line terminators). -/
def matchChannel (channel : List Char) : Option (List Char) :=
  match stripPfx "__keyspace@".data channel with
  | none => none
  | some r1 =>
    if (r1.takeWhile Char.isDigit).isEmpty then none
    else
      match stripPfx "__:bull:".data (r1.dropWhile Char.isDigit) with
      | none => none
      | some keyPart =>
        if keyPart.isEmpty then none
        else if keyPart.any isLineTerm then none
        else some keyPart

/-- The `JobEvent` object the subscriber callback receives; `timestamp`
is `Date.now()` at parse time, threaded in as `now`. -/
structure JobEventV where
  eventType : List Char
  queueName : List Char
  jobId : List Char
  timestamp : Int
deriving Repr, DecidableEq

/-- `parseKeyspaceEvent(channel, message)`: match the keyspace envelope,
split the remainder on `:` (first token = queue name, joined rest = key
suffix); a suffix that is none of the six reserved names is a job id and
the op maps hset/hmset → updated, del → removed, otherwise the raw op;
a reserved suffix yields the queue-level event table with empty job id,
with `meta` falling to the `default: return null`. -/
def parseKeyspaceEvent (now : Int) (channel op : List Char) :
    Option JobEventV :=
  match matchChannel channel with
  | none => none
  | some keyPart =>
    let parts := splitChar ':' keyPart
    if parts.length < 2 then none
    else
      let queueName := parts.headD []
      let keySuffix := joinChar ':' (parts.drop 1)
      if keySuffix ≠ "wait".data ∧ keySuffix ≠ "active".data ∧
          keySuffix ≠ "completed".data ∧ keySuffix ≠ "failed".data ∧
          keySuffix ≠ "delayed".data ∧ keySuffix ≠ "meta".data then
        let eventType :=
          if op = "hset".data ∨ op = "hmset".data then "updated".data
          else if op = "del".data then "removed".data
          else op
        some ⟨eventType, queueName, keySuffix, now⟩
      else if keySuffix = "wait".data then
        let eventType :=
          if op = "lpush".data ∨ op = "rpush".data then "waiting".data
          else if op = "lrem".data then "dequeued".data
          else op
        some ⟨eventType, queueName, [], now⟩
      else if keySuffix = "active".data then
        let eventType :=
          if op = "lpush".data ∨ op = "rpush".data then "active".data
          else op
        some ⟨eventType, queueName, [], now⟩
      else if keySuffix = "completed".data then
        let eventType :=
          if op = "zadd".data then "completed".data else op
        some ⟨eventType, queueName, [], now⟩
      else if keySuffix = "failed".data then
        let eventType := if op = "zadd".data then "failed".data else op
        some ⟨eventType, queueName, [], now⟩
      else if keySuffix = "delayed".data then
        let eventType := if op = "zadd".data then "delayed".data else op
        some ⟨eventType, queueName, [], now⟩
      else none

/-- The channel string for one keyspace notification on a key of the
modelled queue: `__keyspace@<db>__:bull:<q>:<tail>`. -/
def keyspaceChannel (db q tail : List Char) : List Char :=
  "__keyspace@".data ++ (db ++ ("__:bull:".data ++ (q ++ ':' :: tail)))

/-- The first ready/error event a fresh ioredis client reports. -/
inductive ConnEvent where
  | ready : ConnEvent
  | err : ConnEvent
deriving Repr, DecidableEq

/-- JS `String.prototype.startsWith`, as a character-list prefix test
(Lean's own `String.startsWith` does not reduce in the kernel). -/
def jsStartsWith (s pfx : String) : Bool :=
  pfx.data.isPrefixOf s.data

/-- The adapter's held command client (`this.client`), as an opaque
handle id; `none` is the null of the unconnected adapter. -/
structure AdapterConn where
  client : Option Nat
deriving Repr, DecidableEq

/-- `connect(connectionString)`: reject strings without the `redis://`
scheme untouched; otherwise store a fresh client and wait for its first
ready/error event — ready resolves `Ok`, error disconnects the (new)
client, nulls the field and resolves `Err`.  The returned list is the
clients `connect` disconnected. -/
def connect (st : AdapterConn) (cs : String) (fresh : Nat)
    (ev : ConnEvent) : Except String Unit × AdapterConn × List Nat :=
  if ¬ jsStartsWith cs "redis://" then
    (.error "Invalid connection string format. Expected redis://host:port",
      st, [])
  else
    match ev with
    | .ready => (.ok (), ⟨some fresh⟩, [])
    | .err => (.error "connection error", ⟨none⟩, [fresh])

/-- The six status strings `GetJobsQuerySchema` accepts. -/
def JOB_STATUSES : List String :=
  ["waiting", "active", "completed", "failed", "delayed", "paused"]

/-- The validated query produced by `GetJobsQuerySchema`. -/
structure GetJobsQuery where
  status : String
  page : Int
  limit : Int
deriving Repr, DecidableEq

/-- `GetJobsQuerySchema.parse` on an already-coerced query (`z.coerce`'s
string-to-number step is elided; non-integer inputs are out of the Int
model): `status` defaults to waiting and must be one of the six statuses,
`page` defaults to 1 with `min(1)`, `limit` defaults to 25 with `min(1)`
and `max(100)`. -/
def getJobsQueryParse (status : Option String) (page limit : Option Int) :
    Except String GetJobsQuery :=
  match status with
  | some s =>
    if s ∈ JOB_STATUSES then
      match page with
      | some p =>
        if 1 ≤ p then
          match limit with
          | some l =>
            if 1 ≤ l ∧ l ≤ 100 then .ok ⟨s, p, l⟩
            else .error "limit out of range"
          | none => .ok ⟨s, p, 25⟩
        else .error "page out of range"
      | none =>
        match limit with
        | some l =>
          if 1 ≤ l ∧ l ≤ 100 then .ok ⟨s, 1, l⟩
          else .error "limit out of range"
        | none => .ok ⟨s, 1, 25⟩
    else .error "invalid status"
  | none =>
    match page with
    | some p =>
      if 1 ≤ p then
        match limit with
        | some l =>
          if 1 ≤ l ∧ l ≤ 100 then .ok ⟨"waiting", p, l⟩
          else .error "limit out of range"
        | none => .ok ⟨"waiting", p, 25⟩
      else .error "page out of range"
    | none =>
      match limit with
      | some l =>
        if 1 ≤ l ∧ l ≤ 100 then .ok ⟨"waiting", 1, l⟩
        else .error "limit out of range"
      | none => .ok ⟨"waiting", 1, 25⟩

/-- The `Ok` payload of a tagged outcome, `none` for `Err`. -/
def exOk {ε α : Type} : Except ε α → Option α
  | .ok a => some a
  | .error _ => none

/-! ### Probe and slice lemmas -/

theorem lpos_isSome_iff (l : List String) (x : String) :
    (lpos l x).isSome = true ↔ x ∈ l := by
  rw [lpos, List.findIdx?_isSome]
  simp

theorem zscore_isSome_iff (z : List (String × Int)) (m : String) :
    (zscore z m).isSome = true ↔ m ∈ z.map Prod.fst := by
  rw [zscore, Option.isSome_map']
  rw [List.find?_isSome]
  simp only [List.mem_map, decide_eq_true_eq]

theorem redisSlice_eq_drop_take {α : Type} (l : List α) (o k : Int)
    (ho : 0 ≤ o) (hk : 1 ≤ k) :
    redisSlice l o (o + k - 1) = (l.drop o.toNat).take k.toNat := by
  have hs : ¬ (o < 0) := by omega
  have hstop : ¬ (o + k - 1 < 0) := by omega
  simp only [redisSlice, if_neg hs, if_neg hstop]
  by_cases hn : (l.length : Int) ≤ o
  · rw [if_pos (by omega)]
    rw [List.drop_eq_nil_of_le (by omega), List.take_nil]
  · push_neg at hn
    rw [if_neg (by omega)]
    by_cases h2 : o + k - 1 ≤ (l.length : Int) - 1
    · have hmin : min (o + k - 1) ((l.length : Int) - 1) = o + k - 1 := by
        omega
      rw [hmin]
      have hcnt : (o + k - 1 - o + 1).toNat = k.toNat := by omega
      rw [hcnt]
    · push_neg at h2
      have hmin : min (o + k - 1) ((l.length : Int) - 1) =
          (l.length : Int) - 1 := by omega
      rw [hmin]
      have hlen : (l.drop o.toNat).length = l.length - o.toNat :=
        List.length_drop _ _
      rw [List.take_of_length_le (by rw [hlen]; omega),
        List.take_of_length_le (by rw [hlen]; omega)]

theorem redisSlice_hundred {α : Type} (l : List α) :
    redisSlice l 0 99 = l.take 100 := by
  have h := redisSlice_eq_drop_take l 0 100 (by norm_num) (by norm_num)
  norm_num at h
  simpa using h

/-- A parse oracle used by concrete witnesses: non-empty digit strings
parse to the corresponding JSON number, anything else throws — as
`JSON.parse` itself does on inputs such as three hash marks. -/
def jpNum : String → Option JVal := fun s =>
  if s ≠ "" ∧ s.data.all Char.isDigit then
    some (JVal.num ((parseIntJS s).getD 0))
  else none

/-- A one-job-per-index state used by concrete witnesses. -/
def stW : QueueState where
  wait := ["j1"]
  active := ["j2"]
  completed := [("j3", 5)]
  failed := [("j4", 7)]
  delayed := [("j5", 9)]
  hash := fun _ => [("attemptsMade", "1"), ("timestamp", "100")]

/-- C1: `getJob` probes waiting, active, completed, failed, delayed in
that fixed order; the first index containing the id both fixes the
returned status (via `fetchJobData` under that status) and ends the
probe sequence; an id in no index, or an empty record hash after a
positive probe, yields the NotFound error. -/
theorem c1_getJob_probe_order (jp : String → Option JVal)
    (st : QueueState) (q jid : String) :
    (jid ∈ st.wait →
      getJobProbed jp st q jid =
        (fetchJobData jp st q jid "waiting", [Ix.waiting])) ∧
    (jid ∉ st.wait → jid ∈ st.active →
      getJobProbed jp st q jid =
        (fetchJobData jp st q jid "active", [Ix.waiting, Ix.active])) ∧
    (jid ∉ st.wait → jid ∉ st.active → jid ∈ st.completed.map Prod.fst →
      getJobProbed jp st q jid =
        (fetchJobData jp st q jid "completed",
          [Ix.waiting, Ix.active, Ix.completed])) ∧
    (jid ∉ st.wait → jid ∉ st.active → jid ∉ st.completed.map Prod.fst →
      jid ∈ st.failed.map Prod.fst →
      getJobProbed jp st q jid =
        (fetchJobData jp st q jid "failed",
          [Ix.waiting, Ix.active, Ix.completed, Ix.failed])) ∧
    (jid ∉ st.wait → jid ∉ st.active → jid ∉ st.completed.map Prod.fst →
      jid ∉ st.failed.map Prod.fst → jid ∈ st.delayed.map Prod.fst →
      getJobProbed jp st q jid =
        (fetchJobData jp st q jid "delayed",
          [Ix.waiting, Ix.active, Ix.completed, Ix.failed, Ix.delayed])) ∧
    (jid ∉ st.wait → jid ∉ st.active → jid ∉ st.completed.map Prod.fst →
      jid ∉ st.failed.map Prod.fst → jid ∉ st.delayed.map Prod.fst →
      getJobProbed jp st q jid =
        (.error .notFound,
          [Ix.waiting, Ix.active, Ix.completed, Ix.failed, Ix.delayed])) ∧
    (st.hash jid = [] → getJob jp st q jid = .error .notFound) := by
  have hw := lpos_isSome_iff st.wait jid
  have ha := lpos_isSome_iff st.active jid
  have hc := zscore_isSome_iff st.completed jid
  have hf := zscore_isSome_iff st.failed jid
  have hd := zscore_isSome_iff st.delayed jid
  refine ⟨?_, ?_, ?_, ?_, ?_, ?_, ?_⟩
  · intro h1
    simp [getJobProbed, hw.mpr h1]
  · intro h1 h2
    simp [getJobProbed, hw, ha, h1, h2]
  · intro h1 h2 h3
    simp [getJobProbed, hw, ha, hc, h1, h2, h3]
  · intro h1 h2 h3 h4
    simp [getJobProbed, hw, ha, hc, hf, h1, h2, h3, h4]
  · intro h1 h2 h3 h4 h5
    simp [getJobProbed, hw, ha, hc, hf, hd, h1, h2, h3, h4, h5]
  · intro h1 h2 h3 h4 h5
    simp [getJobProbed, hw, ha, hc, hf, hd, h1, h2, h3, h4, h5]
  · intro hh
    unfold getJob getJobProbed
    split_ifs <;> simp [fetchJobData, hh]

/-- Concrete check of C1: in `stW` the id `j2` sits only in the active
list, so the probe stops there and the fetch is issued under status
active. -/
theorem c1_getJob_probe_order_witness :
    getJobProbed jpNum stW "q" "j2" =
      (fetchJobData jpNum stW "q" "j2" "active", [Ix.waiting, Ix.active]) :=
  (c1_getJob_probe_order jpNum stW "q" "j2").2.1 (by decide) (by decide)

/-- A three-completed-jobs state used by concrete witnesses. -/
def stC2 : QueueState where
  wait := ["w1", "w2", "w3"]
  active := []
  completed := [("c1", 1), ("c2", 2), ("c3", 3)]
  failed := []
  delayed := [("d1", 4), ("d2", 6)]
  hash := fun _ => []

/-- C2: for offset ≥ 0 and limit ≥ 1 the id page of `getJobs` is the
positions `offset … offset+limit-1` of: the wait list for waiting, the
active list for active, the reversed (descending-by-score, newest-first)
sorted set for completed and failed, and the ascending (soonest-first)
sorted set for delayed; when the stored set is ascending-sorted, the
completed/failed page is descending by score and the delayed page is
ascending by score; every status outside these five is rejected with the
unknown-status error. -/
theorem c2_getJobs_page_ranges (jp : String → Option JVal) (st : QueueState)
    (q : String) (o k : Int) (ho : 0 ≤ o) (hk : 1 ≤ k) :
    pageIds st "waiting" o k = .ok ((st.wait.drop o.toNat).take k.toNat) ∧
    pageIds st "active" o k = .ok ((st.active.drop o.toNat).take k.toNat) ∧
    pageIds st "completed" o k =
      .ok (((st.completed.reverse.drop o.toNat).take k.toNat).map Prod.fst) ∧
    pageIds st "failed" o k =
      .ok (((st.failed.reverse.drop o.toNat).take k.toNat).map Prod.fst) ∧
    pageIds st "delayed" o k =
      .ok (((st.delayed.drop o.toNat).take k.toNat).map Prod.fst) ∧
    (st.completed.Pairwise (fun a b => a.2 ≤ b.2) →
      ((st.completed.reverse.drop o.toNat).take k.toNat).Pairwise
        (fun a b => b.2 ≤ a.2)) ∧
    (st.failed.Pairwise (fun a b => a.2 ≤ b.2) →
      ((st.failed.reverse.drop o.toNat).take k.toNat).Pairwise
        (fun a b => b.2 ≤ a.2)) ∧
    (st.delayed.Pairwise (fun a b => a.2 ≤ b.2) →
      ((st.delayed.drop o.toNat).take k.toNat).Pairwise
        (fun a b => a.2 ≤ b.2)) ∧
    (∀ s, s ∉ ["waiting", "active", "completed", "failed", "delayed"] →
      getJobs jp st q s o k = .error .unknownStatus) := by
  refine ⟨?_, ?_, ?_, ?_, ?_, ?_, ?_, ?_, ?_⟩
  · simp [pageIds]
    rw [redisSlice_eq_drop_take st.wait o k ho hk]
  · simp [pageIds]
    rw [redisSlice_eq_drop_take st.active o k ho hk]
  · simp [pageIds]
    rw [← List.map_reverse, redisSlice_eq_drop_take _ o k ho hk]
  · simp [pageIds]
    rw [← List.map_reverse, redisSlice_eq_drop_take _ o k ho hk]
  · simp [pageIds]
    rw [redisSlice_eq_drop_take _ o k ho hk]
  · intro hp
    exact List.Pairwise.sublist
      ((List.take_sublist _ _).trans (List.drop_sublist _ _))
      (List.pairwise_reverse.mpr hp)
  · intro hp
    exact List.Pairwise.sublist
      ((List.take_sublist _ _).trans (List.drop_sublist _ _))
      (List.pairwise_reverse.mpr hp)
  · intro hp
    exact List.Pairwise.sublist
      ((List.take_sublist _ _).trans (List.drop_sublist _ _)) hp
  · intro s hs
    simp only [List.mem_cons, List.not_mem_nil, or_false, not_or] at hs
    obtain ⟨h1, h2, h3, h4, h5⟩ := hs
    simp [getJobs, pageIds, h1, h2, h3, h4, h5]

/-- Concrete check of C2: in `stC2` the completed page at offset 1,
limit 2 is the ids at descending-score positions 1 and 2, newest
first. -/
theorem c2_getJobs_page_ranges_witness :
    pageIds stC2 "completed" 1 2 = .ok ["c2", "c1"] := by
  have h := (c2_getJobs_page_ranges jpNum stC2 "q" 1 2 (by decide)
    (by decide)).2.2.1
  simpa using h

theorem foldl_push_eq_filterMap {ε α : Type} (rs : List (Except ε α))
    (acc : List α) :
    rs.foldl pushOk acc = acc ++ rs.filterMap exOk := by
  induction rs generalizing acc with
  | nil => simp
  | cons r rs ih =>
    cases r <;> simp [ih, pushOk, exOk, List.filterMap_cons]

/-- A page with one fetchable record, one missing record and one record
whose `data` field is malformed JSON, used by concrete witnesses. -/
def stC9 : QueueState where
  wait := ["good", "bad", "ugly"]
  active := []
  completed := []
  failed := []
  delayed := []
  hash := fun j =>
    if j = "good" then [("timestamp", "5")]
    else if j = "ugly" then [("data", "x")]
    else []

/-- C9: for the five statuses `getJobs` always returns `Ok`, keeping
exactly the ids of the page whose per-job fetch succeeded — every
failed fetch (missing record or decode failure alike) is silently
omitted and never surfaces as a `getJobs` error. -/
theorem c9_getJobs_silently_drops (jp : String → Option JVal)
    (st : QueueState) (q s : String) (o k : Int)
    (hs : s ∈ ["waiting", "active", "completed", "failed", "delayed"]) :
    ∃ ids, pageIds st s o k = .ok ids ∧
      getJobs jp st q s o k =
        .ok (ids.filterMap fun jid => exOk (fetchJobData jp st q jid s)) := by
  obtain ⟨ids, hids⟩ : ∃ ids, pageIds st s o k = .ok ids := by
    simp only [List.mem_cons, List.not_mem_nil, or_false] at hs
    rcases hs with h | h | h | h | h <;> subst h
    · exact ⟨redisSlice st.wait o (o + k - 1), by simp [pageIds]⟩
    · exact ⟨redisSlice st.active o (o + k - 1), by simp [pageIds]⟩
    · exact ⟨redisSlice ((st.completed.map Prod.fst).reverse) o (o + k - 1),
        by simp [pageIds]⟩
    · exact ⟨redisSlice ((st.failed.map Prod.fst).reverse) o (o + k - 1),
        by simp [pageIds]⟩
    · exact ⟨redisSlice (st.delayed.map Prod.fst) o (o + k - 1),
        by simp [pageIds]⟩
  refine ⟨ids, hids, ?_⟩
  simp only [getJobs, hids]
  rw [foldl_push_eq_filterMap, List.filterMap_map]
  rfl

/-- Concrete check of C9: of the three ids in `stC9`'s wait page, the
missing record and the malformed-`data` record are dropped and the call
still returns `Ok`. -/
theorem c9_getJobs_silently_drops_witness :
    getJobs jpNum stC9 "q" "waiting" 0 10 =
      .ok (["good", "bad", "ugly"].filterMap fun jid =>
        exOk (fetchJobData jpNum stC9 "q" jid "waiting")) := by
  obtain ⟨ids, h1, h2⟩ :=
    c9_getJobs_silently_drops jpNum stC9 "q" "waiting" 0 10 (by decide)
  have h0 : pageIds stC9 "waiting" 0 10 = .ok ["good", "bad", "ugly"] := by
    rfl
  rw [h0] at h1
  have hids : ["good", "bad", "ugly"] = ids := by
    injection h1
  rw [h2, ← hids]

/-! ### C3: metrics formulas, spec side -/

/-- Modelled on the spec's words: the newest-100 sample of a terminal
sorted set, newest first. -/
def specSample (z : List (String × Int)) : List (String × Int) :=
  z.reverse.take 100

/-- Modelled on the spec's words: throughput counts the sampled members,
across both samples combined, with score at least `now` minus one hour
(inclusive boundary). -/
def specThroughput (st : QueueState) (now : Int) : Nat :=
  ((specSample st.completed ++ specSample st.failed).filter
    fun p => now - 3600000 ≤ p.2).length

/-- Modelled on the spec's words: failure rate is failed-sample size
over combined sample size, zero when the denominator is zero. -/
def specFailureRate (st : QueueState) : Rat :=
  let c := (specSample st.completed).length
  let f := (specSample st.failed).length
  if c + f = 0 then 0 else (f : Rat) / ((c : Rat) + (f : Rat))

/-- The processing time of one sampled completed member: defined only
when its record fetch succeeds and both timestamps are non-null. -/
def procTimeOf (jp : String → Option JVal) (st : QueueState)
    (q : String) (p : String × Int) : Option JSNum :=
  match fetchJobData jp st q p.1 "completed" with
  | .ok j =>
    match j.processedOn, j.finishedOn with
    | some po, some fo => some (jsSub fo po)
    | _, _ => none
  | .error _ => none

/-- Modelled on the spec's words: mean of `finishedOn - processedOn`
over the valid completed samples, zero when none are valid. -/
def specAvgProcessing (jp : String → Option JVal) (st : QueueState)
    (q : String) : Option Rat :=
  let vals := (specSample st.completed).filterMap (procTimeOf jp st q)
  if vals.length = 0 then some 0
  else (vals.foldl jsAdd (some 0)).map fun t => (t : Rat) / (vals.length : Rat)

/-- The spec-side step: consume one extracted processing time into the
running (sum, count) pair. -/
def procStep {α : Type} (g : α → Option JSNum) (acc : JSNum × Nat)
    (x : α) : JSNum × Nat :=
  match g x with
  | some v => (jsAdd acc.1 v, acc.2 + 1)
  | none => acc

theorem foldl_procTime {α : Type} (g : α → Option JSNum) (l : List α)
    (a : JSNum) (n : Nat) :
    l.foldl (procStep g) (a, n) =
    ((l.filterMap g).foldl jsAdd a, n + (l.filterMap g).length) := by
  induction l generalizing a n with
  | nil => simp
  | cons x xs ih =>
    cases hg : g x with
    | none => simp [procStep, hg, ih, List.filterMap_cons]
    | some v =>
      simp only [List.foldl_cons, procStep, hg, List.filterMap_cons, ih,
        List.length_cons, Prod.mk.injEq]
      exact ⟨trivial, by omega⟩

theorem metrics_step_eq (jp : String → Option JVal) (st : QueueState)
    (q : String) (acc : JSNum × Nat) (p : String × Int) :
    metricsStep jp st q acc p = procStep (procTimeOf jp st q) acc p := by
  unfold metricsStep procStep procTimeOf
  cases fetchJobData jp st q p.1 "completed" with
  | error e => rfl
  | ok j =>
    cases hpo : j.processedOn <;> cases hfo : j.finishedOn <;>
      simp [hpo, hfo]

/-- C3: `getMetrics` samples only the newest 100 members of the
completed and the newest 100 of the failed set; throughput is the count
of sampled members across both samples with score at least
`now - 3600000` (inclusive); failureRate is failed-sample size over
combined sample size (0 on empty denominator); avgProcessingTime is the
mean of `finishedOn - processedOn` over the sampled completed records
with both timestamps present, skipping unfetchable records, and 0 when
no valid samples exist. -/
theorem c3_getMetrics_sampling (jp : String → Option JVal)
    (st : QueueState) (q : String) (now : Int) :
    getMetrics jp st q now =
      .ok { throughput := specThroughput st now
            failureRate := specFailureRate st
            avgProcessingTime := specAvgProcessing jp st q } := by
  simp only [getMetrics, specThroughput, specFailureRate, specAvgProcessing,
    specSample, redisSlice_hundred, Except.ok.injEq, MetricsV.mk.injEq]
  refine ⟨?_, ?_, ?_⟩
  · rw [List.filter_append, List.length_append]
    norm_num
  · by_cases h : (st.completed.reverse.take 100).length +
        (st.failed.reverse.take 100).length = 0
    · simp only [List.length_take, List.length_reverse] at h
      have hc : st.completed.length = 0 := by omega
      have hf : st.failed.length = 0 := by omega
      simp [List.length_eq_zero.mp hc, List.length_eq_zero.mp hf]
    · have hpos : 0 < (st.completed.reverse.take 100).length +
          (st.failed.reverse.take 100).length := Nat.pos_of_ne_zero h
      simp only [h, if_neg h, if_pos hpos, gt_iff_lt]
      push_cast
      ring_nf
  · rw [List.foldl_ext (metricsStep jp st q)
      (procStep (procTimeOf jp st q)) _
      (fun a p _ => metrics_step_eq jp st q a p), foldl_procTime]
    by_cases hl : ((st.completed.reverse.take 100).filterMap
        (procTimeOf jp st q)).length = 0
    · simp [hl]
    · have hpos : 0 < ((st.completed.reverse.take 100).filterMap
          (procTimeOf jp st q)).length := Nat.pos_of_ne_zero hl
      simp [hl, hpos]

theorem takeWhile_all {α : Type} {p : α → Bool} (l : List α)
    (h : l.all p = true) : l.takeWhile p = l := by
  induction l with
  | nil => rfl
  | cons x xs ih => simp_all [List.takeWhile_cons]

theorem parseIntJS_digits (s : String) (hne : s.data ≠ [])
    (hd : s.data.all Char.isDigit = true) :
    ∃ n : Nat, parseIntJS s = some (n : Int) := by
  unfold parseIntJS
  cases hs : s.data with
  | nil => exact absurd hs hne
  | cons c cs =>
    rw [hs] at hd
    simp only [List.all_cons, Bool.and_eq_true] at hd
    obtain ⟨hc, hcs⟩ := hd
    have hdrop : (c :: cs).dropWhile
        (fun c => decide (c = ' ' ∨ c = '\t' ∨ c = '\n' ∨ c = '\r')) =
        c :: cs := by
      have : ¬ (c = ' ' ∨ c = '\t' ∨ c = '\n' ∨ c = '\r') := by
        rintro (h | h | h | h) <;> subst h <;> exact absurd hc (by decide)
      simp [List.dropWhile_cons, this]
    have hcm : ¬ c = '-' := by
      intro h; subst h; exact absurd hc (by decide)
    have hcp : ¬ c = '+' := by
      intro h; subst h; exact absurd hc (by decide)
    simp only [hdrop, if_neg hcm, if_neg hcp]
    rw [takeWhile_all _ (by simp [hc, hcs])]
    refine ⟨(c :: cs).foldl (fun a c => a * 10 + (c.toNat - 48)) 0, ?_⟩
    simp

/-- Structural fields of any successfully fetched job depend only on
the record hash: the literal assignments survive whichever payload
branches were taken. -/
theorem fetchJobData_ok_structural (jp : String → Option JVal)
    (st : QueueState) (q jid s : String) (j : Job)
    (hj : fetchJobData jp st q jid s = .ok j) :
    j.timestamp =
      parseIntJS ((truthy (hget (st.hash jid) "timestamp")).getD "0") ∧
    j.processedOn =
      (truthy (hget (st.hash jid) "processedOn")).map parseIntJS ∧
    j.finishedOn =
      (truthy (hget (st.hash jid) "finishedOn")).map parseIntJS ∧
    j.delay = (truthy (hget (st.hash jid) "delay")).map parseIntJS ∧
    j.attempts =
      parseIntJS ((truthy (hget (st.hash jid) "attemptsMade")).getD "0") ∧
    j.error = truthy (hget (st.hash jid) "failedReason") ∧
    j.id = jid ∧ j.queueName = q ∧ j.status = s := by
  by_cases hne : st.hash jid = []
  · simp [fetchJobData, hne] at hj
  · rcases hd : decodeJson jp (hget (st.hash jid) "data") with e | dv <;>
      rcases h2 : decodeJson jp (hget (st.hash jid) "stacktrace")
        with e2 | sv <;>
      rcases hm : decodeOptsAttempts jp (hget (st.hash jid) "opts")
        with e3 | mv <;>
      rcases hr : decodeJson jp (hget (st.hash jid) "returnvalue")
        with e4 | rv <;>
      simp_all [fetchJobData, hne, bind, Except.bind]
    subst hj
    simp

/-- A record whose `data` field holds malformed JSON. -/
def stC4 : QueueState where
  wait := ["j"]
  active := []
  completed := []
  failed := []
  delayed := []
  hash := fun j => if j = "j" then [("data", "x"), ("timestamp", "7")] else []

theorem decodeJson_congr (jp : String → Option JVal) (o1 o2 : Option String)
    (h : truthy o1 = truthy o2) : decodeJson jp o1 = decodeJson jp o2 := by
  unfold decodeJson
  rw [h]

theorem decodeOptsAttempts_congr (jp : String → Option JVal)
    (o1 o2 : Option String) (h : truthy o1 = truthy o2) :
    decodeOptsAttempts jp o1 = decodeOptsAttempts jp o2 := by
  unfold decodeOptsAttempts
  rw [h]

theorem decodeJson_parse_fail (jp : String → Option JVal)
    (o : Option String) (v : String) (hv : truthy o = some v)
    (hjp : jp v = none) : decodeJson jp o = .error .decode := by
  simp [decodeJson, hv, hjp]

theorem decodeOptsAttempts_parse_fail (jp : String → Option JVal)
    (o : Option String) (v : String) (hv : truthy o = some v)
    (hjp : jp v = none) : decodeOptsAttempts jp o = .error .decode := by
  simp [decodeOptsAttempts, hv, hjp]

/-- The fetch succeeds exactly when the record hash is non-empty and
all four payload decodes succeed: the structural fields play no part in
success or failure. -/
theorem fetchJobData_isOk_eq (jp : String → Option JVal) (st : QueueState)
    (q jid s : String) :
    (fetchJobData jp st q jid s).isOk =
      (!(st.hash jid).isEmpty &&
        ((decodeJson jp (hget (st.hash jid) "data")).isOk &&
          ((decodeJson jp (hget (st.hash jid) "stacktrace")).isOk &&
            ((decodeOptsAttempts jp (hget (st.hash jid) "opts")).isOk &&
              (decodeJson jp
                (hget (st.hash jid) "returnvalue")).isOk)))) := by
  by_cases hne : st.hash jid = []
  · simp [fetchJobData, hne, Except.isOk, Except.toBool]
  · have hie : (st.hash jid).isEmpty = false := by
      cases h : st.hash jid with
      | nil => exact absurd h hne
      | cons a l => rfl
    rcases hd : decodeJson jp (hget (st.hash jid) "data") with e | dv <;>
      rcases h2 : decodeJson jp (hget (st.hash jid) "stacktrace")
        with e2 | sv <;>
      rcases hm : decodeOptsAttempts jp (hget (st.hash jid) "opts")
        with e3 | mv <;>
      rcases hr : decodeJson jp (hget (st.hash jid) "returnvalue")
        with e4 | rv <;>
      simp [fetchJobData, hne, hie, hd, h2, hm, hr, bind, Except.bind,
        Except.isOk, Except.toBool]

/-- C4 counterexample: a JSON parse error on the payload field `data`
does fail the fetch — the call returns the decode error instead of a
job carrying the raw string, contradicting the claim at this record. -/
theorem c4_counterexample :
    fetchJobData jpNum stC4 "q" "j" "waiting" = .error .decode := rfl

/-- C4 (amended): a JSON parse error on any truthy payload field
(`data`, `stacktrace`, `opts`, `returnvalue`) fails the whole fetch —
with the decode error when `data`, evaluated first, is the malformed
field — and the raw string is never surfaced; parse problems on
structural fields can never fail the fetch: success depends only on
hash non-emptiness and the four payload fields, and a non-empty record
with no truthy payload fields decodes `Ok` whatever its structural
fields hold, `parseInt` turning junk into NaN rather than an error. -/
theorem c4_payload_parse_error_fails (jp : String → Option JVal)
    (st : QueueState) (q jid s : String) :
    (∀ v, truthy (hget (st.hash jid) "data") = some v → jp v = none →
      fetchJobData jp st q jid s = .error .decode) ∧
    (∀ v, truthy (hget (st.hash jid) "stacktrace") = some v →
      jp v = none → (fetchJobData jp st q jid s).isOk = false) ∧
    (∀ v, truthy (hget (st.hash jid) "opts") = some v → jp v = none →
      (fetchJobData jp st q jid s).isOk = false) ∧
    (∀ v, truthy (hget (st.hash jid) "returnvalue") = some v →
      jp v = none → (fetchJobData jp st q jid s).isOk = false) ∧
    (∀ st2 : QueueState, st2.hash jid ≠ [] → st.hash jid ≠ [] →
      truthy (hget (st2.hash jid) "data") =
        truthy (hget (st.hash jid) "data") →
      truthy (hget (st2.hash jid) "stacktrace") =
        truthy (hget (st.hash jid) "stacktrace") →
      truthy (hget (st2.hash jid) "opts") =
        truthy (hget (st.hash jid) "opts") →
      truthy (hget (st2.hash jid) "returnvalue") =
        truthy (hget (st.hash jid) "returnvalue") →
      (fetchJobData jp st2 q jid s).isOk =
        (fetchJobData jp st q jid s).isOk) ∧
    (st.hash jid ≠ [] →
      truthy (hget (st.hash jid) "data") = none →
      truthy (hget (st.hash jid) "stacktrace") = none →
      truthy (hget (st.hash jid) "opts") = none →
      truthy (hget (st.hash jid) "returnvalue") = none →
      fetchJobData jp st q jid s = .ok
        { id := jid
          queueName := q
          data := JVal.null
          status := s
          error := truthy (hget (st.hash jid) "failedReason")
          stacktrace := JVal.null
          attempts := parseIntJS
            ((truthy (hget (st.hash jid) "attemptsMade")).getD "0")
          maxAttempts := none
          timestamp := parseIntJS
            ((truthy (hget (st.hash jid) "timestamp")).getD "0")
          processedOn := (truthy (hget (st.hash jid) "processedOn")).map
            parseIntJS
          finishedOn := (truthy (hget (st.hash jid) "finishedOn")).map
            parseIntJS
          returnvalue := none
          delay := (truthy (hget (st.hash jid) "delay")).map
            parseIntJS }) := by
  refine ⟨?_, ?_, ?_, ?_, ?_, ?_⟩
  · intro v hv hjp
    have hne : st.hash jid ≠ [] := by
      intro he
      rw [he] at hv
      simp [hget, truthy] at hv
    simp [fetchJobData, hne, decodeJson_parse_fail jp _ v hv hjp, bind,
      Except.bind]
  · intro v hv hjp
    rw [fetchJobData_isOk_eq, decodeJson_parse_fail jp _ v hv hjp]
    simp [Except.isOk, Except.toBool]
  · intro v hv hjp
    rw [fetchJobData_isOk_eq, decodeOptsAttempts_parse_fail jp _ v hv hjp]
    simp [Except.isOk, Except.toBool]
  · intro v hv hjp
    rw [fetchJobData_isOk_eq, decodeJson_parse_fail jp _ v hv hjp]
    simp [Except.isOk, Except.toBool]
  · intro st2 hne2 hne h1 h2 h3 h4
    have hie : (st.hash jid).isEmpty = false := by
      cases h : st.hash jid with
      | nil => exact absurd h hne
      | cons a l => rfl
    have hie2 : (st2.hash jid).isEmpty = false := by
      cases h : st2.hash jid with
      | nil => exact absurd h hne2
      | cons a l => rfl
    rw [fetchJobData_isOk_eq, fetchJobData_isOk_eq,
      decodeJson_congr jp _ _ h1, decodeJson_congr jp _ _ h2,
      decodeOptsAttempts_congr jp _ _ h3, decodeJson_congr jp _ _ h4,
      hie, hie2]
  · intro hne h1 h2 h3 h4
    simp [fetchJobData, hne, decodeJson, decodeOptsAttempts, h1, h2, h3, h4,
      bind, Except.bind]

/-- A record whose `data` parses fine but whose `opts` is malformed
JSON. -/
def stC4c : QueueState where
  wait := ["j"]
  active := []
  completed := []
  failed := []
  delayed := []
  hash := fun j =>
    if j = "j" then [("data", "5"), ("opts", "x"), ("timestamp", "7")]
    else []

/-- Concrete check of the amended C4: a malformed `opts` field — with
`data` itself valid — also fails the fetch. -/
theorem c4_payload_parse_error_fails_witness :
    (fetchJobData jpNum stC4c "q" "j" "waiting").isOk = false :=
  (c4_payload_parse_error_fails jpNum stC4c "q" "j" "waiting").2.2.1
    "x" rfl rfl

/-- A non-empty record whose hash lacks `timestamp`, `finishedOn` and
`delay`. -/
def stC8 : QueueState where
  wait := ["j"]
  active := []
  completed := []
  failed := []
  delayed := []
  hash := fun j => if j = "j" then [("processedOn", "5")] else []

/-- C8 counterexample: with `timestamp` absent from the record hash the
decoded job reports the default numeric value 0 for it, not an absent
attribute, contradicting the absent-maps-to-absent part of the claim
(absent `finishedOn`/`delay` do map to null/undefined). -/
theorem c8_counterexample :
    (fetchJobData jpNum stC8 "q" "j" "waiting").map
      (fun j => (j.timestamp, j.processedOn, j.finishedOn, j.delay)) =
    .ok (some 0, some (some 5), none, none) := rfl

/-- C8 (amended): `timestamp`, `processedOn`, `finishedOn` and `delay`
decode via `parseInt` — a non-empty all-digit field value yields its
integer milliseconds; an absent `processedOn`/`finishedOn` maps to null
and an absent `delay` to undefined, but an absent `timestamp` maps to
the default numeric value 0 rather than an absent attribute. -/
theorem c8_timestamp_defaults_zero (jp : String → Option JVal)
    (st : QueueState) (q jid s : String) (j : Job)
    (hj : fetchJobData jp st q jid s = .ok j) :
    j.timestamp =
      parseIntJS ((truthy (hget (st.hash jid) "timestamp")).getD "0") ∧
    j.processedOn =
      (truthy (hget (st.hash jid) "processedOn")).map parseIntJS ∧
    j.finishedOn =
      (truthy (hget (st.hash jid) "finishedOn")).map parseIntJS ∧
    j.delay = (truthy (hget (st.hash jid) "delay")).map parseIntJS ∧
    (truthy (hget (st.hash jid) "timestamp") = none →
      j.timestamp = some 0) ∧
    (∀ v : String, truthy (hget (st.hash jid) "timestamp") = some v →
      v.data ≠ [] → v.data.all Char.isDigit = true →
      ∃ n : Nat, j.timestamp = some (n : Int)) := by
  obtain ⟨ht, hp, hf, hd, _⟩ := fetchJobData_ok_structural jp st q jid s j hj
  refine ⟨ht, hp, hf, hd, ?_, ?_⟩
  · intro h0
    rw [ht, h0]
    rfl
  · intro v hv hvne hvd
    rw [ht, hv, Option.getD_some]
    exact parseIntJS_digits v hvne hvd

/-- The job `fetchJobData` produces from `stC8`'s record. -/
def jC8 : Job where
  id := "j"
  queueName := "q"
  data := JVal.null
  status := "waiting"
  error := none
  stacktrace := JVal.null
  attempts := some 0
  maxAttempts := none
  timestamp := some 0
  processedOn := some (some 5)
  finishedOn := none
  returnvalue := none
  delay := none

/-- Concrete check of the amended C8: the `stC8` record decodes with
timestamp defaulted to 0 and `processedOn` parsed to 5. -/
theorem c8_timestamp_defaults_zero_witness :
    jC8.timestamp = some 0 ∧ jC8.processedOn = some (some 5) := by
  have h := c8_timestamp_defaults_zero jpNum stC8 "q" "j" "waiting" jC8 rfl
  exact ⟨h.2.2.2.2.1 rfl, by rw [h.2.1]; rfl⟩

/-! ### Event-parser lemmas -/

theorem stripPfx_append (p r : List Char) : stripPfx p (p ++ r) = some r := by
  induction p with
  | nil => rfl
  | cons c cs ih => simp [stripPfx, ih]

theorem splitChar_ne_nil (sep : Char) (t : List Char) :
    splitChar sep t ≠ [] := by
  cases t with
  | nil => simp [splitChar]
  | cons c cs =>
    by_cases h : c = sep
    · simp [splitChar, h]
    · simp only [splitChar, if_neg h]
      cases splitChar sep cs <;> simp

theorem splitChar_sepFree (sep : Char) (t : List Char) (h : sep ∉ t) :
    splitChar sep t = [t] := by
  induction t with
  | nil => rfl
  | cons c cs ih =>
    simp only [List.mem_cons, not_or] at h
    obtain ⟨h1, h2⟩ := h
    have hc : ¬ c = sep := fun hh => h1 hh.symm
    simp [splitChar, hc, ih h2]

theorem splitChar_append (sep : Char) (q t : List Char) (hq : sep ∉ q) :
    splitChar sep (q ++ sep :: t) = q :: splitChar sep t := by
  induction q with
  | nil => simp [splitChar]
  | cons c cs ih =>
    simp only [List.mem_cons, not_or] at hq
    obtain ⟨h1, h2⟩ := hq
    have hc : ¬ c = sep := fun hh => h1 hh.symm
    have := splitChar_ne_nil sep (cs ++ sep :: t)
    simp only [List.cons_append, splitChar, if_neg hc, List.append_eq, ih h2]

theorem joinChar_splitChar (sep : Char) (t : List Char) :
    joinChar sep (splitChar sep t) = t := by
  induction t with
  | nil => rfl
  | cons c cs ih =>
    by_cases h : c = sep
    · subst h
      simp only [splitChar, if_pos rfl]
      cases hs : splitChar c cs with
      | nil => exact absurd hs (splitChar_ne_nil _ _)
      | cons w ws =>
        rw [hs] at ih
        simp only [joinChar, List.nil_append]
        rw [ih]
    · simp only [splitChar, if_neg h]
      cases hs : splitChar sep cs with
      | nil => exact absurd hs (splitChar_ne_nil _ _)
      | cons w ws =>
        rw [hs] at ih
        cases ws with
        | nil =>
          simp only [joinChar] at ih ⊢
          rw [ih]
        | cons w2 ws2 =>
          simp only [joinChar] at ih ⊢
          rw [List.cons_append, ih]

theorem takeWhile_nonDigit_head (c : Char) (r : List Char)
    (h : c.isDigit = false) : (c :: r).takeWhile Char.isDigit = [] := by
  simp [List.takeWhile_cons, h]

theorem dropWhile_nonDigit_head (c : Char) (r : List Char)
    (h : c.isDigit = false) : (c :: r).dropWhile Char.isDigit = c :: r := by
  simp [List.dropWhile_cons, h]

theorem matchChannel_keyspace (db q tail : List Char) (hdb : db ≠ [])
    (hdig : db.all Char.isDigit = true)
    (hq : q.any isLineTerm = false)
    (htail : tail.any isLineTerm = false) :
    matchChannel (keyspaceChannel db q tail) = some (q ++ ':' :: tail) := by
  have hall : ∀ a ∈ db, Char.isDigit a := by
    simpa using hdig
  have hshape : ("__:bull:".data ++ (q ++ ':' :: tail)) =
      '_' :: ("_:bull:".data ++ (q ++ ':' :: tail)) := rfl
  have h1 : (db ++ ("__:bull:".data ++ (q ++ ':' :: tail))).takeWhile
      Char.isDigit = db := by
    rw [List.takeWhile_append_of_pos hall, hshape,
      takeWhile_nonDigit_head _ _ (by decide), List.append_nil]
  have h2 : (db ++ ("__:bull:".data ++ (q ++ ':' :: tail))).dropWhile
      Char.isDigit = "__:bull:".data ++ (q ++ ':' :: tail) := by
    rw [List.dropWhile_append_of_pos hall, hshape,
      dropWhile_nonDigit_head _ _ (by decide)]
  have hdbe : db.isEmpty = false := by
    cases db with
    | nil => exact absurd rfl hdb
    | cons c cs => rfl
  have hne : (q ++ ':' :: tail).isEmpty = false := by
    cases q <;> rfl
  have hterm : (q ++ ':' :: tail).any isLineTerm = false := by
    rw [List.any_append, List.any_cons]
    simp [hq, htail, isLineTerm]
  unfold matchChannel keyspaceChannel
  rw [stripPfx_append]
  simp only [h1, h2, hdbe, stripPfx_append, hne, hterm, Bool.false_eq_true,
    if_false]

theorem matchChannel_keyspace_general (db q tail : List Char)
    (hdb : db ≠ []) (hdig : db.all Char.isDigit = true) :
    matchChannel (keyspaceChannel db q tail) =
      if (q ++ ':' :: tail).any isLineTerm = true then none
      else some (q ++ ':' :: tail) := by
  have hall : ∀ a ∈ db, Char.isDigit a := by
    simpa using hdig
  have hshape : ("__:bull:".data ++ (q ++ ':' :: tail)) =
      '_' :: ("_:bull:".data ++ (q ++ ':' :: tail)) := rfl
  have h1 : (db ++ ("__:bull:".data ++ (q ++ ':' :: tail))).takeWhile
      Char.isDigit = db := by
    rw [List.takeWhile_append_of_pos hall, hshape,
      takeWhile_nonDigit_head _ _ (by decide), List.append_nil]
  have h2 : (db ++ ("__:bull:".data ++ (q ++ ':' :: tail))).dropWhile
      Char.isDigit = "__:bull:".data ++ (q ++ ':' :: tail) := by
    rw [List.dropWhile_append_of_pos hall, hshape,
      dropWhile_nonDigit_head _ _ (by decide)]
  have hdbe : db.isEmpty = false := by
    cases db with
    | nil => exact absurd rfl hdb
    | cons c cs => rfl
  have hne : (q ++ ':' :: tail).isEmpty = false := by
    cases q <;> rfl
  unfold matchChannel keyspaceChannel
  rw [stripPfx_append]
  simp only [h1, h2, hdbe, stripPfx_append, hne, Bool.false_eq_true,
    if_false]

/-- C6: a keyspace notification on a queue's `meta` key never produces
an event — for every database index, queue name (colon-free, per the
data model) and mutation op, the parser returns no event. -/
theorem c6_meta_never_delivers (now : Int) (db q op : List Char)
    (hdb : db ≠ []) (hdig : db.all Char.isDigit = true)
    (hq : (':' : Char) ∉ q) :
    parseKeyspaceEvent now (keyspaceChannel db q "meta".data) op = none := by
  unfold parseKeyspaceEvent
  rw [matchChannel_keyspace_general db q "meta".data hdb hdig]
  by_cases hlt : (q ++ ':' :: "meta".data).any isLineTerm = true
  · rw [if_pos hlt]
  · rw [if_neg hlt]
    simp only [splitChar_append ':' q "meta".data hq,
      splitChar_sepFree ':' "meta".data (by decide), joinChar,
      List.headD_cons, List.length_cons, List.length_singleton,
      List.drop_succ_cons, List.drop_zero]
    simp

/-- Concrete check of C6: an `hset` on `bull:emails:meta` in db 0 is
dropped. -/
theorem c6_meta_never_delivers_witness :
    parseKeyspaceEvent 0 (keyspaceChannel "0".data "emails".data
      "meta".data) "hset".data = none :=
  c6_meta_never_delivers 0 "0".data "emails".data "hset".data
    (by decide) (by decide) (by decide)

/-- C5 counterexample: an op outside hset/hmset/del on a job key is
forwarded as the raw op (`expired`), not mapped to `updated` as the
claim states. -/
theorem c5_counterexample :
    parseKeyspaceEvent 0 "__keyspace@0__:bull:q:42".data "expired".data =
      some ⟨"expired".data, "q".data, "42".data, 0⟩ ∧
    "expired".data ≠ "updated".data := by
  exact ⟨rfl, by decide⟩

/-- C5 (amended): for a channel whose tail after the (colon-free) queue
name is none of the six reserved suffixes, the parser emits an event
whose jobId is the full tail including embedded colons, with kind
`updated` for hset and hmset, `removed` for del, and the raw op name
for every other op. -/
theorem c5_job_key_event_mapping (now : Int) (db q tail op : List Char)
    (hdb : db ≠ []) (hdig : db.all Char.isDigit = true)
    (hq : (':' : Char) ∉ q)
    (hqt : q.any isLineTerm = false) (htt : tail.any isLineTerm = false)
    (hres : tail ∉ ["wait".data, "active".data, "completed".data,
      "failed".data, "delayed".data, "meta".data]) :
    parseKeyspaceEvent now (keyspaceChannel db q tail) op =
      some ⟨if op = "hset".data ∨ op = "hmset".data then "updated".data
            else if op = "del".data then "removed".data else op,
            q, tail, now⟩ := by
  unfold parseKeyspaceEvent
  rw [matchChannel_keyspace db q tail hdb hdig hqt htt]
  have hpos : 0 < (splitChar ':' tail).length :=
    List.length_pos.mpr (splitChar_ne_nil ':' tail)
  have hlen : ¬ ((q :: splitChar ':' tail).length < 2) := by
    simp only [List.length_cons]
    omega
  simp only [splitChar_append ':' q tail hq, if_neg hlen, List.headD_cons,
    List.drop_succ_cons, List.drop_zero, joinChar_splitChar]
  simp only [List.mem_cons, List.not_mem_nil, or_false, not_or] at hres
  obtain ⟨n1, n2, n3, n4, n5, n6⟩ := hres
  rw [if_pos ⟨n1, n2, n3, n4, n5, n6⟩]

/-- Concrete check of the amended C5: an `hmset` on the job key
`bull:emails:weird:id:with:colons` yields `updated` with the whole
colon-laden job id. -/
theorem c5_job_key_event_mapping_witness :
    parseKeyspaceEvent 0 (keyspaceChannel "0".data "emails".data
      "weird:id:with:colons".data) "hmset".data =
      some ⟨"updated".data, "emails".data,
        "weird:id:with:colons".data, 0⟩ := by
  have h := c5_job_key_event_mapping 0 "0".data "emails".data
    "weird:id:with:colons".data "hmset".data (by decide) (by decide)
    (by decide) (by decide) (by decide) (by decide)
  rw [h]
  rfl

/-- C7 counterexample: the adapter's `getJobs` does not reject limit 0
— with offset 0 and limit 0 the Redis stop index is -1, so the whole
wait list comes back under `Ok` (here one job) instead of an
InvalidArgument error. -/
theorem c7_counterexample :
    (getJobs jpNum stW "q" "waiting" 0 0).map List.length = .ok 1 := rfl

/-- C7 (amended): limit bounds live only in the HTTP layer's
`GetJobsQuerySchema`: a limit is accepted iff it lies in [1,100] (so 0
and 101 are rejected) and a page iff it is ≥ 1, while the adapter's
`getJobs` itself checks no bounds and returns `Ok` for every offset and
limit on the five statuses. -/
theorem c7_limit_validation (n p o k : Int) (jp : String → Option JVal)
    (st : QueueState) (q s : String)
    (hs : s ∈ ["waiting", "active", "completed", "failed", "delayed"]) :
    ((getJobsQueryParse none none (some n)).isOk = true ↔
      1 ≤ n ∧ n ≤ 100) ∧
    ((getJobsQueryParse none (some p) none).isOk = true ↔ 1 ≤ p) ∧
    (getJobsQueryParse none none (some 0)).isOk = false ∧
    (getJobsQueryParse none none (some 101)).isOk = false ∧
    (getJobs jp st q s o k).isOk = true := by
  refine ⟨?_, ?_, by decide, by decide, ?_⟩
  · by_cases h : 1 ≤ n ∧ n ≤ 100 <;>
      simp [getJobsQueryParse, h, Except.isOk, Except.toBool]
  · by_cases h : 1 ≤ p <;>
      simp [getJobsQueryParse, h, Except.isOk, Except.toBool]
  · simp only [List.mem_cons, List.not_mem_nil, or_false] at hs
    rcases hs with h | h | h | h | h <;> subst h <;>
      simp [getJobs, pageIds, Except.isOk, Except.toBool]

/-- Concrete check of the amended C7: the schema accepts limit 50 and
the adapter returns `Ok` on a plain waiting page. -/
theorem c7_limit_validation_witness :
    (getJobsQueryParse none none (some 50)).isOk = true ∧
    (getJobs jpNum stW "q" "waiting" 0 5).isOk = true :=
  ⟨(c7_limit_validation 50 1 0 5 jpNum stW "q" "waiting"
      (by decide)).1.mpr (by decide),
    (c7_limit_validation 50 1 0 5 jpNum stW "q" "waiting"
      (by decide)).2.2.2.2⟩

/-- C10: `connect` fails exactly when the connection string lacks the
`redis://` scheme or the first client event is an error; the previously
held client never influences the outcome, a successful connect simply
replaces the stored client with the fresh one, and `connect` never
disconnects any client other than the fresh one it created. -/
theorem c10_connect_replaces (st st2 : AdapterConn) (cs : String)
    (fresh : Nat) (ev : ConnEvent) :
    ((connect st cs fresh ev).1 = .ok () ↔
      jsStartsWith cs "redis://" = true ∧ ev = .ready) ∧
    (connect st cs fresh ev).1 = (connect st2 cs fresh ev).1 ∧
    (jsStartsWith cs "redis://" = true → ev = .ready →
      connect st cs fresh ev = (.ok (), ⟨some fresh⟩, [])) ∧
    (∀ c : Nat, st.client = some c → c ≠ fresh →
      c ∉ (connect st cs fresh ev).2.2) := by
  unfold connect
  by_cases h : jsStartsWith cs "redis://" <;> cases ev <;> simp [h]

/-- Concrete check of C10: connecting over an already-stored client 7
succeeds and stores the fresh client 8, closing nothing. -/
theorem c10_connect_replaces_witness :
    connect ⟨some 7⟩ "redis://localhost:6379" 8 ConnEvent.ready =
      (.ok (), ⟨some 8⟩, []) :=
  (c10_connect_replaces ⟨some 7⟩ ⟨some 7⟩ "redis://localhost:6379" 8
    ConnEvent.ready).2.2.1 (by decide) rfl
